import Mathlib

/-!
Verification development for the sentinel-proxy service (Go).

The definitions below are a shallow embedding of the Go source:

* `pkg/proxy` (load balancer): `Backend`, `NewLoadBalancer`,
  `UpdateBackendStateByUrl`, `computePriority`, `selectWeighted`,
  `recordLatency`.
* `pkg/integrity/analyzer.go`: `AnalyzeEpochIntegrity`.
* `pkg/health/integrity.go`: `checkBackendIntegrity`, `processStats`.
* `pkg/proxy/forwarder.go`: the no-backend branches of `Forward`,
  `ForwardArchiver`, `ForwardPruned`.

Modelling conventions:

* Go `float64` is modelled by `ℚ`.  Every floating-point computation the
  theorems below evaluate concretely involves only values that float64
  represents exactly (small integers, halves), so the rational model agrees
  with the float semantics at every concrete input used.
* Go `time.Duration` (int64 nanoseconds) and Go `int`/`int64` are modelled
  by `Int`; Go integer division truncates toward zero, which is `Int.tdiv`.
* Go `strconv.ParseInt(s, 10, 64)` is modelled by `goParseInt`, including
  Go's behaviour of returning the clamped value `±(2^63 − 1)` / `−2^63`
  together with an error on out-of-range input, and `0` on syntax errors.
* Nil pointers (`*IntegrityStats`, `*RequestStats`, `*EpochStats`) are
  modelled by `Option`.
* Go map iteration (`stats.Stats`) is modelled by an association list; all
  quantities the integrity check derives from it (status counts, distinct
  validators, epoch sets, minima) are order independent.
-/

namespace SentinelProxy

/-- Latency window bound, `LatencyWindowSize = 100` in `pkg/proxy`. -/
def latencyWindowSize : Nat := 100

/-- `RequestStats` from `pkg/proxy`; durations are int64 nanoseconds. -/
structure RequestStats where
  avgLatency : Int
  maxLatency : Int
  minLatency : Int
  totalRequests : Int
  totalErrors : Int
  latencyHistory : List Int
deriving DecidableEq, Repr

/-- `IntegrityStats` from `pkg/proxy`; `priority` is a float64, modelled by `ℚ`. -/
structure IntegrityStats where
  missingEpochs : List Int
  inconsistentEpochs : List Int
  score : Int
  status : String
  priority : ℚ
deriving DecidableEq, Repr

/-- `EpochStats` from `pkg/proxy`. -/
structure EpochStats where
  currentEpoch : Int
  totalEpochs : Int
  oldestSlot : Int
  lastProcessedSlot : Int
deriving DecidableEq, Repr

/-- `Backend` from `pkg/proxy`.  The three stats pointers may be nil. -/
structure Backend where
  url : String
  healthy : Bool
  blockNumber : Int
  lastChecked : Int
  nodeType : String
  integrityStats : Option IntegrityStats
  epochStats : Option EpochStats
  requestStats : Option RequestStats
deriving DecidableEq, Repr

/-- The configuration fields the load balancer and integrity checker read. -/
structure Config where
  slotsPerEpoch : Int
  integrityCheckEpochs : Int
  expectedValidators : Int
  archiverThresholdEpochs : Int
  integrityScoreThreshold : Int
deriving DecidableEq, Repr

/-- The fresh `IntegrityStats` value `&IntegrityStats{Priority: 100.0}` that
`computePriority` substitutes for a nil pointer (Go zero values elsewhere). -/
def freshIntegrityStats : IntegrityStats :=
  { missingEpochs := [], inconsistentEpochs := [], score := 0, status := "", priority := 100 }

/-- The latency term of `computePriority`: `+10` if the average latency is
positive and below 100 ms, `+5` if below 500 ms, else `0`.
`Duration.Milliseconds()` divides nanoseconds by 10^6, truncating toward zero. -/
def latencyBonus (requestStats : Option RequestStats) : ℚ :=
  match requestStats with
  | none => 0
  | some rs =>
      if 0 < rs.avgLatency then
        let ms := Int.tdiv rs.avgLatency 1000000
        if ms < 100 then 10 else if ms < 500 then 5 else 0
      else 0

/-- `computePriority` from `pkg/proxy`: base 100, −10 per missing epoch,
−5 per inconsistent epoch, latency bonus, +20 when healthy.  No lower clamp. -/
def computePriority (b : Backend) : Backend :=
  let s := match b.integrityStats with
           | some s => s
           | none => freshIntegrityStats
  let p1 : ℚ := 100 - 10 * (s.missingEpochs.length : ℚ)
  let p2 : ℚ := p1 - 5 * (s.inconsistentEpochs.length : ℚ)
  let p3 : ℚ := p2 + latencyBonus b.requestStats
  let p4 : ℚ := if b.healthy then p3 + 20 else p3
  { b with integrityStats := some { s with priority := p4 } }

/-- The priority stored in a backend's integrity record (0 when the record is nil). -/
def storedPriority (b : Backend) : ℚ :=
  match b.integrityStats with
  | some s => s.priority
  | none => 0

/-- Number of missing epochs `computePriority` penalises (0 when the record is nil). -/
def missingCount (b : Backend) : Nat :=
  match b.integrityStats with
  | some s => s.missingEpochs.length
  | none => 0

/-- Number of inconsistent epochs `computePriority` penalises (0 when the record is nil). -/
def inconsistentCount (b : Backend) : Nat :=
  match b.integrityStats with
  | some s => s.inconsistentEpochs.length
  | none => 0

/-- A backend as `NewLoadBalancer` constructs it: healthy, score 100,
priority 100, empty request and epoch stats. -/
def newBackend (url : String) (now : Int) : Backend :=
  { url := url
    healthy := true
    blockNumber := 0
    lastChecked := now
    nodeType := ""
    integrityStats := some
      { missingEpochs := [], inconsistentEpochs := [], score := 100, status := "", priority := 100 }
    epochStats := some { currentEpoch := 0, totalEpochs := 0, oldestSlot := 0, lastProcessedSlot := 0 }
    requestStats := some
      { avgLatency := 0, maxLatency := 0, minLatency := 0, totalRequests := 0, totalErrors := 0,
        latencyHistory := [] } }

/-- `NewLoadBalancer`: one fresh backend per configured URL. -/
def newLoadBalancer (urls : List String) (now : Int) : List Backend :=
  urls.map (fun u => newBackend u now)

/-- `UpdateBackendStateByUrl`: apply the mutator to the first backend with a
matching URL, then recompute its priority (`updateMetrics` touches no state). -/
def updateBackendStateByUrl (backends : List Backend) (url : String)
    (op : Backend → Backend) : List Backend :=
  match backends with
  | [] => []
  | b :: rest =>
      if b.url = url then computePriority (op b) :: rest
      else b :: updateBackendStateByUrl rest url op

theorem latencyBonus_nonneg (rs : Option RequestStats) : 0 ≤ latencyBonus rs := by
  unfold latencyBonus
  cases rs with
  | none => norm_num
  | some r =>
      dsimp only
      split
      · split
        · norm_num
        · split <;> norm_num
      · norm_num

theorem storedPriority_computePriority (b : Backend) :
    storedPriority (computePriority b) =
      (100 - 10 * (missingCount b : ℚ) - 5 * (inconsistentCount b : ℚ)
        + latencyBonus b.requestStats + if b.healthy then 20 else 0) := by
  unfold computePriority storedPriority missingCount inconsistentCount
  cases b.integrityStats <;> cases b.healthy <;> simp [freshIntegrityStats]

/-- C1, amended: `computePriority` applies no lower clamp, so the stored
priority is only guaranteed to be at least 1 when the epoch penalties
`10·|missingEpochs| + 5·|inconsistentEpochs|` total at most 99. -/
theorem computePriority_ge_one_of_penalty_le
    (b : Backend) (h : 10 * missingCount b + 5 * inconsistentCount b ≤ 99) :
    1 ≤ storedPriority (computePriority b) := by
  rw [storedPriority_computePriority]
  have hb : 0 ≤ latencyBonus b.requestStats := latencyBonus_nonneg _
  have hq : 10 * (missingCount b : ℚ) + 5 * (inconsistentCount b : ℚ) ≤ 99 := by
    exact_mod_cast (Nat.cast_le (α := ℚ)).mpr h
  split <;> nlinarith [hq, hb]

/-- Witness for `computePriority_ge_one_of_penalty_le` at a freshly
constructed backend (no penalties). -/
theorem computePriority_ge_one_witness :
    10 * missingCount (newBackend "u" 0) + 5 * inconsistentCount (newBackend "u" 0) ≤ 99
      ∧ 1 ≤ storedPriority (computePriority (newBackend "u" 0)) :=
  ⟨by decide, computePriority_ge_one_of_penalty_le (newBackend "u" 0) (by decide)⟩

/-- A backend with ten missing epochs and no health or latency bonus. -/
def penalizedBackend : Backend :=
  { url := "u"
    healthy := false
    blockNumber := 0
    lastChecked := 0
    nodeType := ""
    integrityStats := some
      { missingEpochs := [0, 1, 2, 3, 4, 5, 6, 7, 8, 9], inconsistentEpochs := [],
        score := 0, status := "", priority := 100 }
    epochStats := none
    requestStats := none }

/-- C1 counterexample: after `computePriority` runs on a backend with ten
missing epochs, no latency samples and `healthy = false`, the stored priority
is 0, refuting `priority ≥ 1`. -/
theorem computePriority_not_ge_one :
    ¬ 1 ≤ storedPriority (computePriority penalizedBackend) := by
  rw [storedPriority_computePriority]
  norm_num [penalizedBackend, missingCount, inconsistentCount, latencyBonus]

/-! ### Weighted selection (`selectWeighted` in `pkg/proxy`) -/

/-- The priority a candidate contributes to its own weight: its stored
priority, or the default 100 when it has no integrity record. -/
def candPriority (b : Backend) : ℚ :=
  match b.integrityStats with
  | some s => s.priority
  | none => 100

/-- The minimum-priority loop of `selectWeighted`: only candidates with an
integrity record update the running minimum. -/
def minPriorityLoop : List Backend → ℚ → ℚ
  | [], acc => acc
  | b :: rest, acc =>
      match b.integrityStats with
      | some s => minPriorityLoop rest (if s.priority < acc then s.priority else acc)
      | none => minPriorityLoop rest acc

/-- Weight of a candidate given the minimum priority: `max(1, p − pmin + 10)`. -/
def weightOf (pmin : ℚ) (b : Backend) : ℚ := max 1 (candPriority b - pmin + 10)

/-- The cumulative-weight scan of `selectWeighted`: return the first candidate
whose running cumulative weight exceeds the draw `r`. -/
def cumPick : List (Backend × ℚ) → ℚ → ℚ → Option Backend
  | [], _, _ => none
  | (b, w) :: rest, cum, r =>
      if r < cum + w then some b else cumPick rest (cum + w) r

/-- `selectWeighted` from `pkg/proxy`, with the float draw
`r = rand.Float64() * totalWeight` made an explicit parameter.  A singleton
list is returned as is; if the first candidate has no integrity record it is
returned unconditionally; otherwise the minimum priority is taken over the
candidates that have a record, and the cumulative scan picks the winner, with
`candidates[0]` as the (unreachable for in-range `r`) fallback. -/
def selectWeighted (candidates : List Backend) (r : ℚ) : Option Backend :=
  match candidates with
  | [] => none
  | [b] => some b
  | b0 :: b1 :: rest =>
      match b0.integrityStats with
      | none => some b0
      | some s0 =>
          let pmin := minPriorityLoop (b0 :: b1 :: rest) s0.priority
          let ws := (b0 :: b1 :: rest).map (weightOf pmin)
          some ((cumPick ((b0 :: b1 :: rest).zip ws) 0 r).getD b0)

/-- Cumulative weight of the candidates up to and including index `i`. -/
def cumWeight (ws : List ℚ) (i : Nat) : ℚ := ((ws.take (i + 1)).sum)

/-- Index of the first candidate whose cumulative-weight interval contains the
draw `r` (ties broken by input order). -/
def firstIdxCovering (ws : List ℚ) (r : ℚ) : Option Nat :=
  (List.range ws.length).find? (fun i => decide (r < cumWeight ws i))

/-- The specification's minimum priority: minimum over all candidates, a
candidate without an integrity record counting as 100. -/
def pminClaim (candidates : List Backend) : ℚ :=
  match candidates.map candPriority with
  | [] => 100
  | p :: ps => ps.foldl min p

/-- Weighted selection as claim C2 states it: `pmin` is the minimum priority
over all candidates (default 100 without a record), each candidate weighs
`max(1, priority − pmin + 10)`, and the candidate whose cumulative-weight
interval contains `r` is returned. -/
def selectWeightedClaim (candidates : List Backend) (r : ℚ) : Option Backend :=
  match candidates with
  | [] => none
  | [b] => some b
  | b0 :: b1 :: rest =>
      let ws := (b0 :: b1 :: rest).map (weightOf (pminClaim (b0 :: b1 :: rest)))
      some ((((firstIdxCovering ws r).bind
        (fun i => (b0 :: b1 :: rest).get? i))).getD b0)

/-- C2, amended selection: as the claim, except that the minimum priority
ranges only over candidates that have an integrity record, and a candidate
list whose first element has no integrity record yields that first element. -/
def selectWeightedAmended (candidates : List Backend) (r : ℚ) : Option Backend :=
  match candidates with
  | [] => none
  | [b] => some b
  | b0 :: b1 :: rest =>
      match b0.integrityStats with
      | none => some b0
      | some _ =>
          let recorded := (b0 :: b1 :: rest).filterMap
            (fun b => b.integrityStats.map (fun s => s.priority))
          let pmin := match recorded with
                      | [] => (100 : ℚ)
                      | p :: ps => ps.foldl min p
          let ws := (b0 :: b1 :: rest).map (weightOf pmin)
          some ((((firstIdxCovering ws r).bind
            (fun i => (b0 :: b1 :: rest).get? i))).getD b0)

/-- The priorities of the candidates that have an integrity record. -/
def recordedPriorities (candidates : List Backend) : List ℚ :=
  candidates.filterMap (fun b => b.integrityStats.map (fun s => s.priority))

theorem minPriorityLoop_eq_foldl (l : List Backend) (acc : ℚ) :
    minPriorityLoop l acc = (recordedPriorities l).foldl min acc := by
  induction l generalizing acc with
  | nil => simp [minPriorityLoop, recordedPriorities]
  | cons b rest ih =>
      cases hb : b.integrityStats with
      | none => simp [minPriorityLoop, recordedPriorities, hb, ih]
      | some s =>
          have harg : (if s.priority < acc then s.priority else acc) = min acc s.priority := by
            rcases lt_or_le s.priority acc with h | h
            · simp [h, min_eq_right h.le]
            · simp [not_lt.mpr h, min_eq_left h]
          simp only [minPriorityLoop, hb, harg, ih]
          simp [recordedPriorities, hb]

theorem firstIdxCovering_cons (w : ℚ) (ws' : List ℚ) (s : ℚ) :
    firstIdxCovering (w :: ws') s =
      if s < w then some 0
      else (firstIdxCovering ws' (s - w)).map Nat.succ := by
  unfold firstIdxCovering
  rw [List.length_cons, List.range_succ_eq_map]
  rcases lt_or_le s w with h | h
  · rw [List.find?_cons_of_pos _ (by simp [cumWeight, h]), if_pos h]
  · rw [List.find?_cons_of_neg _ (by simp [cumWeight, not_lt.mpr h]),
      if_neg (not_lt.mpr h), List.find?_map]
    have hfun : ((fun i => decide (s < cumWeight (w :: ws') i)) ∘ Nat.succ)
        = fun i => decide (s - w < cumWeight ws' i) := by
      funext i
      have hcw : cumWeight (w :: ws') (i + 1) = w + cumWeight ws' i := by
        simp [cumWeight, List.take_succ_cons]
      simp only [Function.comp_apply, Nat.succ_eq_add_one, hcw]
      exact decide_eq_decide.mpr (by constructor <;> intro hh <;> linarith)
    rw [hfun]

theorem cumPick_eq_firstIdxCovering (cands : List Backend) (ws : List ℚ) (cum r : ℚ) :
    cumPick (cands.zip ws) cum r =
      (firstIdxCovering ws (r - cum)).bind (fun i => cands.get? i) := by
  induction cands generalizing ws cum with
  | nil => simp [cumPick, firstIdxCovering]
  | cons c cs ih =>
      cases ws with
      | nil => simp [cumPick, firstIdxCovering]
      | cons w ws' =>
          rw [List.zip_cons_cons, cumPick, firstIdxCovering_cons]
          rcases lt_or_le (r - cum) w with h | h
          · have hrc : r < cum + w := by linarith
            simp [hrc, h]
          · have hrc : ¬ r < cum + w := by
              intro hh
              exact absurd (by linarith : r - cum < w) (not_lt.mpr h)
            rw [if_neg hrc, if_neg (not_lt.mpr h), ih ws' (cum + w)]
            have harg : r - (cum + w) = r - cum - w := by ring
            rw [harg]
            cases firstIdxCovering ws' (r - cum - w) <;> simp

/-- C2, amended theorem: `selectWeighted` coincides, for every candidate list
and every draw, with the amended specification (minimum priority over recorded
candidates only; first candidate returned when it has no record). -/
theorem selectWeighted_eq_amended (candidates : List Backend) (r : ℚ) :
    selectWeighted candidates r = selectWeightedAmended candidates r := by
  match candidates with
  | [] => rfl
  | [b] => rfl
  | b0 :: b1 :: rest =>
      cases hb : b0.integrityStats with
      | none => simp [selectWeighted, selectWeightedAmended, hb]
      | some s0 =>
          have hpm : minPriorityLoop (b0 :: b1 :: rest) s0.priority =
              (match
                  (b0 :: b1 :: rest).filterMap
                    (fun b => b.integrityStats.map (fun s => s.priority)) with
                | [] => (100 : ℚ)
                | p :: ps => ps.foldl min p) := by
            rw [minPriorityLoop_eq_foldl]
            have hrec : recordedPriorities (b0 :: b1 :: rest) =
                s0.priority :: recordedPriorities (b1 :: rest) := by
              simp [recordedPriorities, hb]
            rw [show (b0 :: b1 :: rest).filterMap
                  (fun b => b.integrityStats.map (fun s => s.priority))
                = recordedPriorities (b0 :: b1 :: rest) from rfl, hrec]
            simp [recordedPriorities]
          simp only [selectWeighted, selectWeightedAmended, hb]
          rw [hpm, cumPick_eq_firstIdxCovering, sub_zero]

/-- A candidate with an integrity record of priority 150. -/
def recordedCandidate : Backend :=
  { url := "a"
    healthy := true
    blockNumber := 0
    lastChecked := 0
    nodeType := ""
    integrityStats := some
      { missingEpochs := [], inconsistentEpochs := [], score := 100, status := "", priority := 150 }
    epochStats := none
    requestStats := none }

/-- A candidate with no integrity record. -/
def unrecordedCandidate : Backend :=
  { url := "b"
    healthy := true
    blockNumber := 0
    lastChecked := 0
    nodeType := ""
    integrityStats := none
    epochStats := none
    requestStats := none }

/-- C2 counterexample: with candidates of priority 150 (recorded) and no
record (default 100), the code takes `pmin = 150` (ignoring the unrecorded
candidate) and weights `[10, 1]`, while the claim takes `pmin = 100` and
weights `[60, 10]`; at draw `r = 21/2` the code returns the second candidate
but the claim demands the first. -/
theorem selectWeighted_ne_claim :
    selectWeighted [recordedCandidate, unrecordedCandidate] (21 / 2) ≠
      selectWeightedClaim [recordedCandidate, unrecordedCandidate] (21 / 2) := by
  have hcode : selectWeighted [recordedCandidate, unrecordedCandidate] (21 / 2) =
      some unrecordedCandidate := by
    show some ((cumPick _ 0 (21 / 2)).getD recordedCandidate) = _
    norm_num [selectWeighted, recordedCandidate, unrecordedCandidate, minPriorityLoop,
      cumPick, weightOf, candPriority]
  have hclaim : selectWeightedClaim [recordedCandidate, unrecordedCandidate] (21 / 2) =
      some recordedCandidate := by
    norm_num [selectWeightedClaim, recordedCandidate, unrecordedCandidate, pminClaim,
      firstIdxCovering_cons, weightOf, candPriority]
  rw [hcode, hclaim]
  intro h
  have := congrArg (fun o => (o.getD recordedCandidate).url) h
  simp [recordedCandidate, unrecordedCandidate] at this

/-! ### Forwarder no-backend branches (`pkg/proxy/forwarder.go`) -/

/-- Outcome of a forward attempt: either an error response written without
contacting any backend (status, body, optional request-counter labels
`(method, status, backend)`), or a reverse proxy to the selected backend. -/
inductive ForwardOutcome where
  | rejected (status : Nat) (body : String) (counter : Option (String × String × String))
  | proxied (b : Backend)
deriving DecidableEq, Repr

/-- `Forward`: `POST /` with the selection result made explicit.  With no
backend it responds 503, body `No healthy backends available`, and increments
`RequestTotal` with labels `("proxy", "503", "none")`. -/
def Forward (selected : Option Backend) : ForwardOutcome :=
  match selected with
  | none => .rejected 503 "No healthy backends available" (some ("proxy", "503", "none"))
  | some b => .proxied b

/-- `ForwardArchiver`: with no backend it responds 503, body
`No healthy archiver backend available`, and increments no counter. -/
def ForwardArchiver (selected : Option Backend) : ForwardOutcome :=
  match selected with
  | none => .rejected 503 "No healthy archiver backend available" none
  | some b => .proxied b

/-- `ForwardPruned`: with no backend it responds 503, body
`No healthy pruned backends available`, and increments no counter. -/
def ForwardPruned (selected : Option Backend) : ForwardOutcome :=
  match selected with
  | none => .rejected 503 "No healthy pruned backends available" none
  | some b => .proxied b

/-- C3 counterexample: when the archiver selection returns no backend the
forwarder writes the body `No healthy archiver backend available` (singular,
not the claimed `No healthy archiver backends available`) and increments no
`status=503, backend=none` counter. -/
theorem forwardArchiver_refutes_claim :
    ForwardArchiver none ≠
      ForwardOutcome.rejected 503 "No healthy archiver backends available"
        (some ("proxy", "503", "none")) := by
  decide

/-- C3, amended: on an empty selection all three endpoints respond 503; only
`POST /` emits the `status=503, backend=none` request counter, and the
archiver body says `backend` (singular). -/
theorem forward_no_backend_responses :
    Forward none =
        ForwardOutcome.rejected 503 "No healthy backends available"
          (some ("proxy", "503", "none"))
      ∧ ForwardArchiver none =
          ForwardOutcome.rejected 503 "No healthy archiver backend available" none
      ∧ ForwardPruned none =
          ForwardOutcome.rejected 503 "No healthy pruned backends available" none :=
  ⟨rfl, rfl, rfl⟩

/-! ### No-op updates (`UpdateBackendStateByUrl`, claim C4) -/

theorem computePriority_integrityStats_isSome (b : Backend) :
    ∃ s, (computePriority b).integrityStats = some s := by
  unfold computePriority
  cases b.integrityStats <;> exact ⟨_, rfl⟩

/-- `computePriority` only rewrites the stored priority from the other fields,
so running it twice equals running it once. -/
theorem computePriority_idem (b : Backend) :
    computePriority (computePriority b) = computePriority b := by
  unfold computePriority
  cases b.integrityStats <;> simp

/-- C4, amended: a no-op mutator update leaves the registry unchanged
provided every backend's stored priority is already the value
`computePriority` derives from its other fields (as holds after any earlier
update); the update itself never touches any other field. -/
theorem updateBackendStateByUrl_noop (backends : List Backend) (url : String)
    (h : ∀ b ∈ backends, computePriority b = b) :
    updateBackendStateByUrl backends url (fun b => b) = backends := by
  induction backends with
  | nil => rfl
  | cons b rest ih =>
      unfold updateBackendStateByUrl
      by_cases hu : b.url = url
      · rw [if_pos hu]
        rw [h b (List.mem_cons_self b rest)]
      · rw [if_neg hu, ih (fun x hx => h x (List.mem_cons_of_mem b hx))]

/-- Witness for `updateBackendStateByUrl_noop` on a priority-normalised
registry of one backend. -/
theorem updateBackendStateByUrl_noop_witness :
    (∀ b ∈ [computePriority (newBackend "u" 0)], computePriority b = b)
      ∧ updateBackendStateByUrl [computePriority (newBackend "u" 0)] "u" (fun b => b) =
          [computePriority (newBackend "u" 0)] := by
  have hnorm : ∀ b ∈ [computePriority (newBackend "u" 0)], computePriority b = b := by
    intro b hb
    rw [List.mem_singleton] at hb
    rw [hb]
    exact computePriority_idem (newBackend "u" 0)
  exact ⟨hnorm, updateBackendStateByUrl_noop _ "u" hnorm⟩

/-- C4 counterexample: on the freshly constructed registry a no-op update is
not the identity — the only backend's stored priority is initialised to 100
but recomputed to 120 (healthy bonus). -/
theorem updateBackendStateByUrl_noop_fresh_ne :
    updateBackendStateByUrl [newBackend "u" 0] "u" (fun b => b) ≠ [newBackend "u" 0] := by
  intro h
  have hcons : computePriority (newBackend "u" 0) :: ([] : List Backend) = [newBackend "u" 0] := by
    have : updateBackendStateByUrl [newBackend "u" 0] "u" (fun b => b) =
        [computePriority (newBackend "u" 0)] := by
      unfold updateBackendStateByUrl
      rw [if_pos (by rfl : (newBackend "u" 0).url = "u")]
    rw [this] at h
    exact h
  have heq : computePriority (newBackend "u" 0) = newBackend "u" 0 := by
    exact List.cons.inj hcons |>.1
  have hp := congrArg storedPriority heq
  rw [storedPriority_computePriority] at hp
  norm_num [newBackend, storedPriority, missingCount, inconsistentCount, latencyBonus] at hp

/-! ### Epoch analyzer (`pkg/integrity/analyzer.go`) -/

/-- `SlotRecord` from `pkg/integrity`. -/
structure SlotRecord where
  slot : String
  status : String
  validator : String
deriving DecidableEq, Repr

/-- `EpochAnalysisInput` from `pkg/integrity`. -/
structure EpochAnalysisInput where
  epochNumber : Int
  records : List SlotRecord
  expectedValidatorsPerEpoch : Int
  slotsPerEpoch : Int
deriving DecidableEq, Repr

/-- `EpochIntegrityResult` from `pkg/integrity`. -/
structure EpochIntegrityResult where
  epochNumber : Int
  totalValidators : Int
  blockMissedCount : Int
  blockMinedCount : Int
  blockProposedCount : Int
  attestationSentCount : Int
  attestationMissedCount : Int
  emptyValidators : Int
  issues : List String
  expectedValidatorsPerEpoch : Int
  integrityScore : Int
  integrityStatus : String
deriving DecidableEq, Repr

/-- Number of records carrying a given status string. -/
def countStatus (records : List SlotRecord) (s : String) : Nat :=
  (records.filter (fun r => r.status == s)).length

/-- Number of distinct non-empty validator addresses among the records. -/
def distinctValidators (records : List SlotRecord) : Nat :=
  ((records.filterMap (fun r => if r.validator = "" then none else some r.validator)).dedup).length

/-- `math.Round`: round half away from zero, as an `ℚ → Int` map. -/
def goRound (q : ℚ) : Int := if q < 0 then -⌊-q + 1 / 2⌋ else ⌊q + 1 / 2⌋

/-- The pre-rounding score of `AnalyzeEpochIntegrity`: 100 minus the four
penalty rules applied cumulatively. -/
def rawScore (input : EpochAnalysisInput) : ℚ :=
  let totalValidators : Int := distinctValidators input.records
  let blockMissed : Int := countStatus input.records "block-missed"
  let blockMined : Int := countStatus input.records "block-mined"
  let blockProposed : Int := countStatus input.records "block-proposed"
  let attestationSent : Int := countStatus input.records "attestation-sent"
  let attestationMissed : Int := countStatus input.records "attestation-missed"
  let emptyValidators : Int :=
    if input.expectedValidatorsPerEpoch - totalValidators < 0 then 0
    else input.expectedValidatorsPerEpoch - totalValidators
  let s1 : ℚ :=
    if input.expectedValidatorsPerEpoch < totalValidators then 100 - 40 else 100
  let totalBlockRecords : Int := blockMined + blockProposed + blockMissed
  let s2 : ℚ :=
    if totalBlockRecords ≠ input.slotsPerEpoch then
      s1 - |((totalBlockRecords - input.slotsPerEpoch : Int) : ℚ)| / (input.slotsPerEpoch : ℚ) * 30
    else s1
  let totalAttestations : Int := attestationSent + attestationMissed
  let slotsWithBlocks : Int := blockMined + blockProposed
  let expectedAttestations : Int := slotsWithBlocks * (input.expectedValidatorsPerEpoch - 1)
  let s3 : ℚ :=
    if totalAttestations ≠ expectedAttestations ∧ 0 < expectedAttestations then
      s2 - |((totalAttestations - expectedAttestations : Int) : ℚ)|
            / ((input.slotsPerEpoch * input.expectedValidatorsPerEpoch : Int) : ℚ) * 25
    else s2
  let s4 : ℚ :=
    if blockMissed = 0 ∧ 0 < emptyValidators then
      s3 - (emptyValidators : ℚ) / (input.expectedValidatorsPerEpoch : ℚ) * 20
    else s3
  s4

/-- `AnalyzeEpochIntegrity` from `pkg/integrity/analyzer.go`.  The final score
is `int(math.Max(0, math.Round(score)))`. -/
def AnalyzeEpochIntegrity (input : EpochAnalysisInput) : EpochIntegrityResult :=
  let totalValidators : Int := distinctValidators input.records
  let blockMissed : Int := countStatus input.records "block-missed"
  let blockMined : Int := countStatus input.records "block-mined"
  let blockProposed : Int := countStatus input.records "block-proposed"
  let attestationSent : Int := countStatus input.records "attestation-sent"
  let attestationMissed : Int := countStatus input.records "attestation-missed"
  let emptyValidators : Int :=
    if input.expectedValidatorsPerEpoch - totalValidators < 0 then 0
    else input.expectedValidatorsPerEpoch - totalValidators
  let totalBlockRecords : Int := blockMined + blockProposed + blockMissed
  let totalAttestations : Int := attestationSent + attestationMissed
  let slotsWithBlocks : Int := blockMined + blockProposed
  let expectedAttestations : Int := slotsWithBlocks * (input.expectedValidatorsPerEpoch - 1)
  let issues : List String :=
    (if input.expectedValidatorsPerEpoch < totalValidators
      then ["Has too many unique validators"] else [])
    ++ (if totalBlockRecords ≠ input.slotsPerEpoch then ["Block record count mismatch"] else [])
    ++ (if totalAttestations ≠ expectedAttestations ∧ 0 < expectedAttestations
          then ["Attestation count mismatch"] else [])
    ++ (if blockMissed = 0 ∧ 0 < emptyValidators
          then ["Has empty validators with no block-missed"] else [])
  let finalScore : Int := max 0 (goRound (rawScore input))
  { epochNumber := input.epochNumber
    totalValidators := totalValidators
    blockMissedCount := blockMissed
    blockMinedCount := blockMined
    blockProposedCount := blockProposed
    attestationSentCount := attestationSent
    attestationMissedCount := attestationMissed
    emptyValidators := emptyValidators
    issues := issues
    expectedValidatorsPerEpoch := input.expectedValidatorsPerEpoch
    integrityScore := finalScore
    integrityStatus :=
      if finalScore = 100 then "VALID"
      else if 90 ≤ finalScore then "WARNING"
      else if 50 ≤ finalScore then "PARTIAL"
      else "INVALID" }

theorem goRound_nonneg (q : ℚ) (h : 0 ≤ q) : 0 ≤ goRound q := by
  unfold goRound
  rw [if_neg (not_lt.mpr h)]
  exact Int.le_floor.mpr (by push_cast; linarith)

theorem goRound_le_100 (q : ℚ) (h : q ≤ 100) : goRound q ≤ 100 := by
  unfold goRound
  split
  · have h0 : (0 : Int) ≤ ⌊-q + 1 / 2⌋ := Int.le_floor.mpr (by push_cast; linarith)
    omega
  · have h1 : ⌊q + 1 / 2⌋ < 101 := Int.floor_lt.mpr (by push_cast; linarith)
    omega

theorem goRound_zero : goRound 0 = 0 := by
  unfold goRound
  rw [if_neg (by norm_num)]
  have : (0 : ℚ) + 1 / 2 = 1 / 2 := by norm_num
  rw [this, Int.floor_eq_zero_iff.mpr (by constructor <;> norm_num)]

theorem max_zero_goRound (q : ℚ) : max 0 (goRound q) = goRound (max 0 q) := by
  rcases le_or_lt 0 q with h | h
  · rw [max_eq_right h, max_eq_right (goRound_nonneg q h)]
  · have h1 : goRound q ≤ 0 := by
      unfold goRound
      rw [if_pos h]
      have : (0 : Int) ≤ ⌊-q + 1 / 2⌋ := Int.le_floor.mpr (by push_cast; linarith)
      omega
    rw [max_eq_left h.le, max_eq_left h1, goRound_zero]

theorem penaltyStep_le {c : Prop} [Decidable c] {s p : ℚ} (hp : c → 0 ≤ p) :
    (if c then s - p else s) ≤ s := by
  split
  · have := hp (by assumption)
    linarith
  · exact le_refl s

theorem rawScore_le_100 (input : EpochAnalysisInput) (h : 1 ≤ input.slotsPerEpoch) :
    rawScore input ≤ 100 := by
  have hS : (0 : ℚ) < (input.slotsPerEpoch : ℚ) := by
    exact_mod_cast lt_of_lt_of_le zero_lt_one h
  simp only [rawScore]
  refine le_trans (penaltyStep_le ?hp4)
    (le_trans (penaltyStep_le ?hp3) (le_trans (penaltyStep_le ?hp2) ?hbase))
  case hp4 =>
    rintro ⟨-, hpos⟩
    by_cases hE : input.expectedValidatorsPerEpoch - (distinctValidators input.records : Int) < 0
    · rw [if_pos hE] at hpos
      exact absurd hpos (by norm_num)
    · rw [if_neg hE] at hpos ⊢
      have hV : (0 : Int) < input.expectedValidatorsPerEpoch := by
        have : (0 : Int) ≤ (distinctValidators input.records : Int) := Int.natCast_nonneg _
        linarith
      have hVq : (0 : ℚ) < (input.expectedValidatorsPerEpoch : ℚ) := by exact_mod_cast hV
      have hEq : (0 : ℚ) ≤ ((input.expectedValidatorsPerEpoch -
          (distinctValidators input.records : Int) : Int) : ℚ) := by
        exact_mod_cast le_of_lt hpos
      exact mul_nonneg (div_nonneg hEq hVq.le) (by norm_num)
  case hp3 =>
    rintro ⟨-, hpos⟩
    have hswb : (0 : Int) ≤ (countStatus input.records "block-mined" : Int) +
        (countStatus input.records "block-proposed" : Int) := by positivity
    have hV : (1 : Int) < input.expectedValidatorsPerEpoch := by
      by_contra hc
      push_neg at hc
      nlinarith [mul_nonneg hswb (by linarith : (0 : Int) ≤ 1 - input.expectedValidatorsPerEpoch)]
    have hSV : (0 : Int) < input.slotsPerEpoch * input.expectedValidatorsPerEpoch := by
      have hsz : (1 : Int) ≤ input.slotsPerEpoch := h
      nlinarith
    have hSVq : (0 : ℚ) < ((input.slotsPerEpoch * input.expectedValidatorsPerEpoch : Int) : ℚ) := by
      exact_mod_cast hSV
    exact mul_nonneg (div_nonneg (abs_nonneg _) hSVq.le) (by norm_num)
  case hp2 =>
    intro _
    exact mul_nonneg (div_nonneg (abs_nonneg _) hS.le) (by norm_num)
  case hbase =>
    split <;> norm_num

/-- C5, amended: for every analyzer input with `slotsPerEpoch ≥ 1`, the
returned integrity score lies in `[0, 100]` and equals
`round(max(0, 100 − accumulated penalties))`.  (For `slotsPerEpoch ≤ 0` the
rule-2 penalty can be negative and the score can exceed 100.) -/
theorem analyzeEpochIntegrity_score_bounds (input : EpochAnalysisInput)
    (h : 1 ≤ input.slotsPerEpoch) :
    0 ≤ (AnalyzeEpochIntegrity input).integrityScore
      ∧ (AnalyzeEpochIntegrity input).integrityScore ≤ 100
      ∧ (AnalyzeEpochIntegrity input).integrityScore = goRound (max 0 (rawScore input)) := by
  have hsc : (AnalyzeEpochIntegrity input).integrityScore
      = max 0 (goRound (rawScore input)) := rfl
  refine ⟨?_, ?_, ?_⟩
  · rw [hsc]
    exact le_max_left _ _
  · rw [hsc]
    exact max_le (by norm_num) (goRound_le_100 _ (rawScore_le_100 input h))
  · rw [hsc, max_zero_goRound]

/-- The records of the perfect epoch from the integrity-checker test: two
validators, slots 20 and 21, one block mined and one attestation sent each. -/
def perfectEpochRecords : List SlotRecord :=
  [{ slot := "20", status := "block-mined", validator := "0x1" },
   { slot := "21", status := "attestation-sent", validator := "0x1" },
   { slot := "20", status := "attestation-sent", validator := "0x2" },
   { slot := "21", status := "block-mined", validator := "0x2" }]

/-- Witness for `analyzeEpochIntegrity_score_bounds` at the perfect epoch. -/
theorem analyzeEpochIntegrity_score_bounds_witness :
    1 ≤ (EpochAnalysisInput.mk 10 perfectEpochRecords 2 2).slotsPerEpoch
      ∧ (0 ≤ (AnalyzeEpochIntegrity (EpochAnalysisInput.mk 10 perfectEpochRecords 2 2)).integrityScore
          ∧ (AnalyzeEpochIntegrity (EpochAnalysisInput.mk 10 perfectEpochRecords 2 2)).integrityScore ≤ 100
          ∧ (AnalyzeEpochIntegrity (EpochAnalysisInput.mk 10 perfectEpochRecords 2 2)).integrityScore
              = goRound (max 0 (rawScore (EpochAnalysisInput.mk 10 perfectEpochRecords 2 2)))) :=
  ⟨by decide, analyzeEpochIntegrity_score_bounds _ (by decide)⟩

/-- An analyzer input with a negative `slotsPerEpoch`. -/
def negSlotsInput : EpochAnalysisInput :=
  { epochNumber := 0, records := [], expectedValidatorsPerEpoch := 0, slotsPerEpoch := -1 }

/-- C5 counterexample: with no records, `expectedValidatorsPerEpoch = 0` and
`slotsPerEpoch = −1`, rule 2's penalty is `(1 / −1) · 30 = −30`, so the
analyzer returns integrity score 130 > 100, refuting `score ≤ 100` for
arbitrary `slotsPerEpoch`. -/
theorem analyzeEpochIntegrity_score_exceeds_100 :
    ¬ (0 ≤ (AnalyzeEpochIntegrity negSlotsInput).integrityScore
        ∧ (AnalyzeEpochIntegrity negSlotsInput).integrityScore ≤ 100) := by
  have hraw : rawScore negSlotsInput = 130 := by
    norm_num [rawScore, negSlotsInput, countStatus, distinctValidators]
  have hsc : (AnalyzeEpochIntegrity negSlotsInput).integrityScore
      = max 0 (goRound (rawScore negSlotsInput)) := rfl
  have hround : goRound 130 = 130 := by
    unfold goRound
    rw [if_neg (by norm_num)]
    have harg : (130 : ℚ) + 1 / 2 = 261 / 2 := by norm_num
    rw [harg]
    have : ⌊(261 / 2 : ℚ)⌋ = 130 := by
      rw [Int.floor_eq_iff] <;> norm_num
    rw [this]
  rw [hsc, hraw, hround]
  norm_num

/-! ### Integer-division and fold helper lemmas -/

theorem tmod_neg_left (a b : Int) : Int.tmod (-a) b = -Int.tmod a b := by
  rw [Int.tmod_def, Int.tmod_def, Int.neg_tdiv]
  ring

theorem le_tdiv_of_mul_le {m n s : Int} (hn : 0 < n) (h : m * n ≤ s) :
    m ≤ Int.tdiv s n := by
  have heq := Int.tmod_add_tdiv s n
  rcases le_or_lt 0 s with hs | hs
  · have hm := Int.tmod_lt_of_pos s hn
    have hcomm : n * Int.tdiv s n = Int.tdiv s n * n := mul_comm _ _
    have hlt : m * n < (Int.tdiv s n + 1) * n := by
      have hexp : (Int.tdiv s n + 1) * n = Int.tdiv s n * n + n := by ring
      linarith
    have := (mul_lt_mul_right hn).mp hlt
    omega
  · have hm : Int.tmod s n ≤ 0 := by
      have h1 : 0 ≤ Int.tmod (-s) n := Int.tmod_nonneg n (by linarith)
      rw [tmod_neg_left] at h1
      linarith
    have hcomm : n * Int.tdiv s n = Int.tdiv s n * n := mul_comm _ _
    have hle : m * n ≤ Int.tdiv s n * n := by linarith
    exact le_of_mul_le_mul_right hle hn

theorem tdiv_le_of_le_mul {M n s : Int} (hn : 0 < n) (h : s ≤ M * n) :
    Int.tdiv s n ≤ M := by
  have heq := Int.tmod_add_tdiv s n
  rcases le_or_lt 0 s with hs | hs
  · have hm : 0 ≤ Int.tmod s n := Int.tmod_nonneg n hs
    have hcomm : n * Int.tdiv s n = Int.tdiv s n * n := mul_comm _ _
    have hle : Int.tdiv s n * n ≤ M * n := by linarith
    exact le_of_mul_le_mul_right hle hn
  · have hm : -n < Int.tmod s n := by
      have h1 : Int.tmod (-s) n < n := Int.tmod_lt_of_pos (-s) hn
      rw [tmod_neg_left] at h1
      linarith
    have hcomm : n * Int.tdiv s n = Int.tdiv s n * n := mul_comm _ _
    have hlt : Int.tdiv s n * n < (M + 1) * n := by
      have hexp : (M + 1) * n = M * n + n := by ring
      linarith
    have := (mul_lt_mul_right hn).mp hlt
    omega

/-- The running-minimum fold of the Go loops (`if v < acc { acc = v }`). -/
def minFoldBy {α : Type} (f : α → Int) (l : List α) (a : Int) : Int :=
  l.foldl (fun acc x => if f x < acc then f x else acc) a

/-- The running-maximum fold of the Go loops (`if v > acc { acc = v }`). -/
def maxFoldBy {α : Type} (f : α → Int) (l : List α) (a : Int) : Int :=
  l.foldl (fun acc x => if acc < f x then f x else acc) a

theorem minFoldBy_le_init {α : Type} (f : α → Int) (l : List α) (a : Int) :
    minFoldBy f l a ≤ a := by
  induction l generalizing a with
  | nil => exact le_refl a
  | cons x xs ih =>
      unfold minFoldBy at ih ⊢
      rw [List.foldl_cons]
      refine le_trans (ih _) ?_
      split <;> omega

theorem minFoldBy_le_mem {α : Type} (f : α → Int) (l : List α) (a : Int)
    (x : α) (hx : x ∈ l) : minFoldBy f l a ≤ f x := by
  induction l generalizing a with
  | nil => cases hx
  | cons y ys ih =>
      unfold minFoldBy at ih ⊢
      rw [List.foldl_cons]
      rcases List.mem_cons.mp hx with h | h
      · subst h
        refine le_trans (minFoldBy_le_init f ys _) ?_
        split <;> omega
      · exact ih _ h

theorem minFoldBy_mem {α : Type} (f : α → Int) (l : List α) (a : Int) :
    minFoldBy f l a = a ∨ ∃ x ∈ l, minFoldBy f l a = f x := by
  induction l generalizing a with
  | nil => exact Or.inl rfl
  | cons y ys ih =>
      unfold minFoldBy at ih ⊢
      rw [List.foldl_cons]
      rcases ih (if f y < a then f y else a) with h | ⟨x, hx, hfx⟩
      · rw [h]
        split
        · exact Or.inr ⟨y, List.mem_cons_self y ys, rfl⟩
        · exact Or.inl rfl
      · exact Or.inr ⟨x, List.mem_cons_of_mem y hx, hfx⟩

theorem maxFoldBy_init_le {α : Type} (f : α → Int) (l : List α) (a : Int) :
    a ≤ maxFoldBy f l a := by
  induction l generalizing a with
  | nil => exact le_refl a
  | cons x xs ih =>
      unfold maxFoldBy at ih ⊢
      rw [List.foldl_cons]
      refine le_trans ?_ (ih _)
      split <;> omega

theorem maxFoldBy_mem_le {α : Type} (f : α → Int) (l : List α) (a : Int)
    (x : α) (hx : x ∈ l) : f x ≤ maxFoldBy f l a := by
  induction l generalizing a with
  | nil => cases hx
  | cons y ys ih =>
      unfold maxFoldBy at ih ⊢
      rw [List.foldl_cons]
      rcases List.mem_cons.mp hx with h | h
      · subst h
        refine le_trans ?_ (maxFoldBy_init_le f ys _)
        split <;> omega
      · exact ih _ h

theorem maxFoldBy_mem {α : Type} (f : α → Int) (l : List α) (a : Int) :
    maxFoldBy f l a = a ∨ ∃ x ∈ l, maxFoldBy f l a = f x := by
  induction l generalizing a with
  | nil => exact Or.inl rfl
  | cons y ys ih =>
      unfold maxFoldBy at ih ⊢
      rw [List.foldl_cons]
      rcases ih (if a < f y then f y else a) with h | ⟨x, hx, hfx⟩
      · rw [h]
        split
        · exact Or.inr ⟨y, List.mem_cons_self y ys, rfl⟩
        · exact Or.inl rfl
      · exact Or.inr ⟨x, List.mem_cons_of_mem y hx, hfx⟩

theorem foldl_add_eq_sum (l : List Int) (c : Int) :
    l.foldl (fun acc x => acc + x) c = c + l.sum := by
  induction l generalizing c with
  | nil => simp
  | cons x xs ih =>
      rw [List.foldl_cons, ih, List.sum_cons]
      ring

theorem length_mul_le_sum (l : List Int) (m : Int) (hm : ∀ x ∈ l, m ≤ x) :
    m * l.length ≤ l.sum := by
  induction l with
  | nil => simp
  | cons x xs ih =>
      have hx := hm x (List.mem_cons_self x xs)
      have hxs := ih (fun y hy => hm y (List.mem_cons_of_mem x hy))
      rw [List.sum_cons, List.length_cons]
      push_cast
      linarith

theorem sum_le_length_mul (l : List Int) (M : Int) (hM : ∀ x ∈ l, x ≤ M) :
    l.sum ≤ M * l.length := by
  induction l with
  | nil => simp
  | cons x xs ih =>
      have hx := hM x (List.mem_cons_self x xs)
      have hxs := ih (fun y hy => hM y (List.mem_cons_of_mem x hy))
      rw [List.sum_cons, List.length_cons]
      push_cast
      linarith

/-! ### Latency window (`recordLatency` in `pkg/proxy`) -/

/-- `recordLatency` from `pkg/proxy`: append the sample (dropping the oldest
when the window holds 100 samples), then recompute total, min and max over
the window and store `avg = total / len` (integer division of durations). -/
def recordLatency (rs : RequestStats) (d : Int) : RequestStats :=
  let hist :=
    if rs.latencyHistory.length < latencyWindowSize
    then rs.latencyHistory ++ [d]
    else rs.latencyHistory.tail ++ [d]
  let h0 := hist.headD 0
  let total := hist.foldl (fun acc x => acc + x) 0
  let mn := minFoldBy id hist h0
  let mx := maxFoldBy id hist h0
  { rs with
    latencyHistory := hist
    avgLatency := Int.tdiv total hist.length
    minLatency := mn
    maxLatency := mx }

/-- C8: after every `recordLatency` call on a history of at most 100 samples,
the window still has at most 100 samples (the oldest dropped exactly when the
window was full), and the recomputed min/avg/max are consistent with exactly
the samples in the window: min and max are attained members bounding every
sample, `avg` is the truncated mean of the window, and `min ≤ avg ≤ max`. -/
theorem recordLatency_window (rs : RequestStats) (d : Int)
    (h : rs.latencyHistory.length ≤ latencyWindowSize) :
    (recordLatency rs d).latencyHistory.length ≤ latencyWindowSize
      ∧ (recordLatency rs d).latencyHistory.length
          = min (rs.latencyHistory.length + 1) latencyWindowSize
      ∧ (recordLatency rs d).minLatency ∈ (recordLatency rs d).latencyHistory
      ∧ (∀ x ∈ (recordLatency rs d).latencyHistory, (recordLatency rs d).minLatency ≤ x)
      ∧ (recordLatency rs d).maxLatency ∈ (recordLatency rs d).latencyHistory
      ∧ (∀ x ∈ (recordLatency rs d).latencyHistory, x ≤ (recordLatency rs d).maxLatency)
      ∧ (recordLatency rs d).avgLatency
          = Int.tdiv ((recordLatency rs d).latencyHistory.sum)
              ((recordLatency rs d).latencyHistory.length)
      ∧ (recordLatency rs d).minLatency ≤ (recordLatency rs d).avgLatency
      ∧ (recordLatency rs d).avgLatency ≤ (recordLatency rs d).maxLatency := by
  have hrl : recordLatency rs d =
      { rs with
        latencyHistory :=
          (if rs.latencyHistory.length < latencyWindowSize
            then rs.latencyHistory ++ [d] else rs.latencyHistory.tail ++ [d])
        avgLatency := Int.tdiv
          ((if rs.latencyHistory.length < latencyWindowSize
            then rs.latencyHistory ++ [d]
            else rs.latencyHistory.tail ++ [d]).foldl (fun acc x => acc + x) 0)
          ((if rs.latencyHistory.length < latencyWindowSize
            then rs.latencyHistory ++ [d] else rs.latencyHistory.tail ++ [d]).length)
        minLatency := minFoldBy id
          (if rs.latencyHistory.length < latencyWindowSize
            then rs.latencyHistory ++ [d] else rs.latencyHistory.tail ++ [d])
          ((if rs.latencyHistory.length < latencyWindowSize
            then rs.latencyHistory ++ [d] else rs.latencyHistory.tail ++ [d]).headD 0)
        maxLatency := maxFoldBy id
          (if rs.latencyHistory.length < latencyWindowSize
            then rs.latencyHistory ++ [d] else rs.latencyHistory.tail ++ [d])
          ((if rs.latencyHistory.length < latencyWindowSize
            then rs.latencyHistory ++ [d] else rs.latencyHistory.tail ++ [d]).headD 0) } := rfl
  rw [hrl]
  set hist := (if rs.latencyHistory.length < latencyWindowSize
    then rs.latencyHistory ++ [d] else rs.latencyHistory.tail ++ [d]) with hhist
  simp only
  have hne : hist ≠ [] := by
    rw [hhist]
    split <;> simp
  have hlenpos : 0 < hist.length := List.length_pos.mpr hne
  have h0mem : hist.headD 0 ∈ hist := by
    cases hx : hist with
    | nil => exact absurd hx hne
    | cons a t =>
        rw [List.headD_cons]
        exact List.mem_cons_self a t
  have hmnmem : minFoldBy id hist (hist.headD 0) ∈ hist := by
    rcases minFoldBy_mem id hist (hist.headD 0) with heq | ⟨x, hx, heq⟩
    · rw [heq]
      exact h0mem
    · rw [heq]
      exact hx
  have hmnle : ∀ x ∈ hist, minFoldBy id hist (hist.headD 0) ≤ x := by
    intro x hx
    simpa using minFoldBy_le_mem id hist (hist.headD 0) x hx
  have hmxmem : maxFoldBy id hist (hist.headD 0) ∈ hist := by
    rcases maxFoldBy_mem id hist (hist.headD 0) with heq | ⟨x, hx, heq⟩
    · rw [heq]
      exact h0mem
    · rw [heq]
      exact hx
  have hmxle : ∀ x ∈ hist, x ≤ maxFoldBy id hist (hist.headD 0) := by
    intro x hx
    simpa using maxFoldBy_mem_le id hist (hist.headD 0) x hx
  have hsum : hist.foldl (fun acc x => acc + x) 0 = hist.sum := by
    rw [foldl_add_eq_sum, zero_add]
  have hcast : (0 : Int) < (hist.length : Int) := by exact_mod_cast hlenpos
  refine ⟨?_, ?_, hmnmem, hmnle, hmxmem, hmxle, by rw [hsum], ?_, ?_⟩
  · rw [hhist]
    unfold latencyWindowSize at h ⊢
    split <;>
      (simp only [List.length_append, List.length_cons, List.length_nil, List.length_tail]
       omega)
  · rw [hhist]
    unfold latencyWindowSize at h ⊢
    split <;>
      (simp only [List.length_append, List.length_cons, List.length_nil, List.length_tail]
       omega)
  · rw [hsum]
    refine le_tdiv_of_mul_le hcast ?_
    have := length_mul_le_sum hist (minFoldBy id hist (hist.headD 0)) hmnle
    exact this
  · rw [hsum]
    refine tdiv_le_of_le_mul hcast ?_
    have := sum_le_length_mul hist (maxFoldBy id hist (hist.headD 0)) hmxle
    exact this

/-- A `RequestStats` record with all zero values (Go zero value). -/
def emptyRequestStats : RequestStats :=
  { avgLatency := 0, maxLatency := 0, minLatency := 0, totalRequests := 0,
    totalErrors := 0, latencyHistory := [] }

/-- Witness for `recordLatency_window` on an empty request-stats record. -/
theorem recordLatency_window_witness :
    emptyRequestStats.latencyHistory.length ≤ latencyWindowSize
      ∧ ((recordLatency emptyRequestStats 5).latencyHistory.length ≤ latencyWindowSize
          ∧ (recordLatency emptyRequestStats 5).latencyHistory.length
              = min (emptyRequestStats.latencyHistory.length + 1) latencyWindowSize
          ∧ (recordLatency emptyRequestStats 5).minLatency
              ∈ (recordLatency emptyRequestStats 5).latencyHistory
          ∧ (∀ x ∈ (recordLatency emptyRequestStats 5).latencyHistory,
              (recordLatency emptyRequestStats 5).minLatency ≤ x)
          ∧ (recordLatency emptyRequestStats 5).maxLatency
              ∈ (recordLatency emptyRequestStats 5).latencyHistory
          ∧ (∀ x ∈ (recordLatency emptyRequestStats 5).latencyHistory,
              x ≤ (recordLatency emptyRequestStats 5).maxLatency)
          ∧ (recordLatency emptyRequestStats 5).avgLatency
              = Int.tdiv ((recordLatency emptyRequestStats 5).latencyHistory.sum)
                  ((recordLatency emptyRequestStats 5).latencyHistory.length)
          ∧ (recordLatency emptyRequestStats 5).minLatency
              ≤ (recordLatency emptyRequestStats 5).avgLatency
          ∧ (recordLatency emptyRequestStats 5).avgLatency
              ≤ (recordLatency emptyRequestStats 5).maxLatency) :=
  ⟨by decide, recordLatency_window emptyRequestStats 5 (by decide)⟩

/-! ### Go integer parsing (`strconv.ParseInt(s, 10, 64)` / `strconv.Atoi`) -/

/-- Strip an optional leading sign, returning the remaining characters and
whether the sign was negative. -/
def splitSign (cs : List Char) : List Char × Bool :=
  match cs with
  | '-' :: rest => (rest, true)
  | '+' :: rest => (rest, false)
  | _ => (cs, false)

/-- The value of a base-10 digit string. -/
def digitsToNat (ds : List Char) : Nat :=
  ds.foldl (fun acc c => acc * 10 + (c.toNat - 48)) 0

/-- Whether a string is syntactically a base-10 integer (optional sign, then
one or more digits). -/
def intSyntaxOk (s : String) : Bool :=
  let ds := (splitSign s.data).1
  !ds.isEmpty && ds.all Char.isDigit

/-- `strconv.ParseInt(s, 10, 64)` as the pair (value, ok): on a syntax error
Go returns value 0 with an error; on an out-of-range input it returns the
nearest representable int64 (`±2^63 − 1` / `−2^63`) with an error. -/
def goParseInt (s : String) : Int × Bool :=
  let ds := (splitSign s.data).1
  let neg := (splitSign s.data).2
  if ds.isEmpty || ds.any (fun c => !c.isDigit) then (0, false)
  else
    let n := digitsToNat ds
    if neg then
      if 2 ^ 63 < n then (-(2 ^ 63 : Int), false) else (-(n : Int), true)
    else
      if 2 ^ 63 ≤ n then ((2 ^ 63 : Int) - 1, false) else ((n : Int), true)

theorem goParseInt_of_syntax_err (s : String) (h : intSyntaxOk s = false) :
    goParseInt s = (0, false) := by
  unfold intSyntaxOk at h
  unfold goParseInt
  rcases Bool.and_eq_false_iff.mp h with h1 | h1
  · rw [Bool.not_eq_false'] at h1
    rw [if_pos (by rw [h1]; rfl)]
  · have h2 : (splitSign s.data).1.any (fun c => !c.isDigit) = true := by
      rcases List.all_eq_false.mp h1 with ⟨c, hc, hcd⟩
      exact List.any_eq_true.mpr ⟨c, hc, by simp [hcd]⟩
    rw [if_pos (by rw [h2, Bool.or_true])]

/-! ### Validator stats and `processStats` (`pkg/health/integrity.go`) -/

/-- `ValidatorHistoryItem` from `pkg/rpc`. -/
structure ValidatorHistoryItem where
  slot : String
  status : String
deriving DecidableEq, Repr

/-- `ValidatorStats` from `pkg/rpc`. -/
structure ValidatorStats where
  history : List ValidatorHistoryItem
deriving DecidableEq, Repr

/-- `GetValidatorsStatsResponse` from `pkg/rpc`; the Go map is modelled as an
association list in iteration order. -/
structure GetValidatorsStatsResponse where
  lastProcessedSlot : String
  stats : List (String × ValidatorStats)
deriving DecidableEq, Repr

/-- All `(validatorAddress, historyItem)` pairs, in iteration order. -/
def allHistoryPairs (stats : GetValidatorsStatsResponse) :
    List (String × ValidatorHistoryItem) :=
  stats.stats.flatMap (fun p => p.2.history.map (fun item => (p.1, item)))

/-- The slot value of a history pair: `slot, _ := strconv.ParseInt(item.Slot, 10, 64)`
with the error discarded. -/
def slotValOf (p : String × ValidatorHistoryItem) : Int := (goParseInt p.2.slot).1

/-- The epoch a history pair is binned into: `epoch := slot / slotsPerEpoch`. -/
def epochOfPair (cfg : Config) (p : String × ValidatorHistoryItem) : Int :=
  Int.tdiv (slotValOf p) cfg.slotsPerEpoch

/-- Result of `processStats`: the `epoch → records` mapping, the ascending
list of observed epochs, and the oldest slot. -/
structure ProcessedStats where
  epochRecords : Int → List SlotRecord
  epochs : List Int
  oldestSlot : Int

/-- `processStats` from `pkg/health/integrity.go`: bin every history item by
`slot / slotsPerEpoch`, track the minimum of the parsed slots seeded with the
parsed `lastProcessedSlot`, and sort the distinct observed epochs ascending. -/
def processStats (cfg : Config) (stats : GetValidatorsStatsResponse) : ProcessedStats :=
  { epochRecords := fun e =>
      ((allHistoryPairs stats).filter (fun p => epochOfPair cfg p == e)).map
        (fun p => { slot := p.2.slot, status := p.2.status, validator := p.1 })
    epochs := List.insertionSort (fun a b => a ≤ b)
      (((allHistoryPairs stats).map (fun p => epochOfPair cfg p)).dedup)
    oldestSlot := minFoldBy slotValOf (allHistoryPairs stats)
      (goParseInt stats.lastProcessedSlot).1 }

/-! ### The integrity check (`checkBackendIntegrity`) -/

/-- The ascending list of distinct observed epochs. -/
def observedEpochs (cfg : Config) (stats : GetValidatorsStatsResponse) : List Int :=
  (processStats cfg stats).epochs

/-- The check window: the last `integrityCheckEpochs` observed epochs
(`epochs[totalEpochs-checkCount:]` when over the limit). -/
def trimmedEpochs (cfg : Config) (stats : GetValidatorsStatsResponse) : List Int :=
  if cfg.integrityCheckEpochs < ((observedEpochs cfg stats).length : Int)
  then (observedEpochs cfg stats).drop
    (((observedEpochs cfg stats).length : Int) - cfg.integrityCheckEpochs).toNat
  else observedEpochs cfg stats

/-- `currentEpoch := int64(currentSlot / slotsPerEpoch)` with
`currentSlot, _ := strconv.Atoi(stats.LastProcessedSlot)`. -/
def currentEpochOf (cfg : Config) (stats : GetValidatorsStatsResponse) : Int :=
  Int.tdiv (goParseInt stats.lastProcessedSlot).1 cfg.slotsPerEpoch

/-- The integers from `lo` to `hi` inclusive (empty when `hi < lo`). -/
def intRange (lo hi : Int) : List Int :=
  (List.range (hi + 1 - lo).toNat).map (fun k => lo + k)

/-- The gap scan: every epoch in `[minEpoch, maxEpoch]` missing from the check
window. -/
def missingEpochsOf (cfg : Config) (stats : GetValidatorsStatsResponse) : List Int :=
  (intRange ((trimmedEpochs cfg stats).headD 0) ((trimmedEpochs cfg stats).getLastD 0)).filter
    (fun e => !((trimmedEpochs cfg stats).contains e))

/-- The per-epoch analysis loop of `checkBackendIntegrity`, carrying the
inconsistent-epoch list, the integrity total and count, and the running
average.  `continue` on partial epochs (`epoch ≥ currentEpoch`); `break` at
the minimum epoch when `totalEpochs ≤ integrityCheckEpochs`. -/
def epochLoop (cfg : Config) (records : Int → List SlotRecord)
    (currentEpoch minEpoch totalEpochs : Int) :
    List Int → List Int → Int → Int → Int → List Int × Int
  | [], incons, _, _, avg => (incons, avg)
  | e :: rest, incons, total, count, avg =>
      if currentEpoch ≤ e then
        epochLoop cfg records currentEpoch minEpoch totalEpochs rest incons total count avg
      else if totalEpochs ≤ cfg.integrityCheckEpochs ∧ e = minEpoch then
        (incons, avg)
      else
        let result := AnalyzeEpochIntegrity
          { epochNumber := e, records := records e,
            expectedValidatorsPerEpoch := cfg.expectedValidators,
            slotsPerEpoch := cfg.slotsPerEpoch }
        let incons2 := if result.integrityScore < 100 then incons ++ [e] else incons
        let total2 := total + result.integrityScore
        let count2 := count + 1
        epochLoop cfg records currentEpoch minEpoch totalEpochs rest incons2 total2 count2
          (Int.tdiv total2 count2)

/-- The analysis loop run on the check window with its initial state
(`inconsistentEpochs = []`, total 0, count 0, average 100). -/
def integrityLoopOut (cfg : Config) (stats : GetValidatorsStatsResponse) : List Int × Int :=
  epochLoop cfg (processStats cfg stats).epochRecords (currentEpochOf cfg stats)
    ((trimmedEpochs cfg stats).headD 0) ((observedEpochs cfg stats).length : Int)
    (trimmedEpochs cfg stats) [] 0 0 100

/-- The write-back mutator of `checkBackendIntegrity` (the closure passed to
`UpdateBackendStateByUrl`): set score, missing and inconsistent epochs, epoch
stats, node type, and the status derived from the score and threshold. -/
def integrityWriteBack (cfg : Config) (stats : GetValidatorsStatsResponse)
    (totalEpochs currentEpoch : Int) (missing incons : List Int)
    (avg oldest : Int) (b : Backend) : Backend :=
  let s := b.integrityStats.getD
    { missingEpochs := [], inconsistentEpochs := [], score := 0, status := "", priority := 0 }
  let es := b.epochStats.getD
    { currentEpoch := 0, totalEpochs := 0, oldestSlot := 0, lastProcessedSlot := 0 }
  { b with
    nodeType := if cfg.archiverThresholdEpochs < totalEpochs then "archiver" else "pruned"
    integrityStats := some
      { s with
        score := avg
        missingEpochs := missing
        inconsistentEpochs := incons
        status :=
          if avg = 100 then "perfect"
          else if cfg.integrityScoreThreshold < avg then "good"
          else "bad" }
    epochStats := some
      { es with
        totalEpochs := totalEpochs
        lastProcessedSlot := (goParseInt stats.lastProcessedSlot).1
        currentEpoch := currentEpoch
        oldestSlot := oldest } }

/-- `checkBackendIntegrity` from `pkg/health/integrity.go`, as a transformer
of the probed backend.  `resp = none` models a `getValidatorsStats` error: the
function returns before touching the backend.  On success the write-back runs
through `UpdateBackendStateByUrl`, which recomputes the priority. -/
def checkBackendIntegrity (cfg : Config) (resp : Option GetValidatorsStatsResponse)
    (b : Backend) : Backend :=
  match resp with
  | none => b
  | some stats =>
      if (observedEpochs cfg stats).length = 0 then b
      else
        computePriority (integrityWriteBack cfg stats
          ((observedEpochs cfg stats).length : Int) (currentEpochOf cfg stats)
          (missingEpochsOf cfg stats) (integrityLoopOut cfg stats).1
          (integrityLoopOut cfg stats).2 (processStats cfg stats).oldestSlot b)

/-- The integrity score stored on a backend (0 when the record is nil). -/
def integrityScoreOf (b : Backend) : Int :=
  match b.integrityStats with
  | some s => s.score
  | none => 0

/-- The integrity status stored on a backend (empty when the record is nil). -/
def integrityStatusOf (b : Backend) : String :=
  match b.integrityStats with
  | some s => s.status
  | none => ""

/-- The inconsistent-epoch list stored on a backend. -/
def inconsistentEpochsOf (b : Backend) : List Int :=
  match b.integrityStats with
  | some s => s.inconsistentEpochs
  | none => []

theorem analyzeScore_nonneg (input : EpochAnalysisInput) :
    0 ≤ (AnalyzeEpochIntegrity input).integrityScore := by
  have h : (AnalyzeEpochIntegrity input).integrityScore
      = max 0 (goRound (rawScore input)) := rfl
  rw [h]
  exact le_max_left _ _

theorem analyzeScore_le_100 (input : EpochAnalysisInput) (h : 1 ≤ input.slotsPerEpoch) :
    (AnalyzeEpochIntegrity input).integrityScore ≤ 100 := by
  have heq : (AnalyzeEpochIntegrity input).integrityScore
      = max 0 (goRound (rawScore input)) := rfl
  rw [heq]
  exact max_le (by norm_num) (goRound_le_100 _ (rawScore_le_100 input h))

theorem integrityScoreOf_computePriority (b : Backend) :
    integrityScoreOf (computePriority b) = integrityScoreOf b := by
  unfold computePriority integrityScoreOf
  cases b.integrityStats <;> simp [freshIntegrityStats]

theorem integrityStatusOf_computePriority (b : Backend) :
    integrityStatusOf (computePriority b) = integrityStatusOf b := by
  unfold computePriority integrityStatusOf
  cases b.integrityStats <;> simp [freshIntegrityStats]

theorem inconsistentEpochsOf_computePriority (b : Backend) :
    inconsistentEpochsOf (computePriority b) = inconsistentEpochsOf b := by
  unfold computePriority inconsistentEpochsOf
  cases b.integrityStats <;> simp [freshIntegrityStats]

theorem integrityScoreOf_writeBack (cfg : Config) (stats : GetValidatorsStatsResponse)
    (totalEpochs currentEpoch : Int) (missing incons : List Int) (avg oldest : Int)
    (b : Backend) :
    integrityScoreOf
      (integrityWriteBack cfg stats totalEpochs currentEpoch missing incons avg oldest b)
      = avg := rfl

theorem integrityStatusOf_writeBack (cfg : Config) (stats : GetValidatorsStatsResponse)
    (totalEpochs currentEpoch : Int) (missing incons : List Int) (avg oldest : Int)
    (b : Backend) :
    integrityStatusOf
      (integrityWriteBack cfg stats totalEpochs currentEpoch missing incons avg oldest b)
      = (if avg = 100 then "perfect"
         else if cfg.integrityScoreThreshold < avg then "good" else "bad") := rfl

theorem inconsistentEpochsOf_writeBack (cfg : Config) (stats : GetValidatorsStatsResponse)
    (totalEpochs currentEpoch : Int) (missing incons : List Int) (avg oldest : Int)
    (b : Backend) :
    inconsistentEpochsOf
      (integrityWriteBack cfg stats totalEpochs currentEpoch missing incons avg oldest b)
      = incons := rfl

theorem checkBackendIntegrity_some (cfg : Config) (stats : GetValidatorsStatsResponse)
    (b : Backend) :
    checkBackendIntegrity cfg (some stats) b =
      if (observedEpochs cfg stats).length = 0 then b
      else
        computePriority (integrityWriteBack cfg stats
          ((observedEpochs cfg stats).length : Int) (currentEpochOf cfg stats)
          (missingEpochsOf cfg stats) (integrityLoopOut cfg stats).1
          (integrityLoopOut cfg stats).2 (processStats cfg stats).oldestSlot b) := rfl

/-- C6: when `getValidatorsStats` fails, `checkBackendIntegrity` returns
before calling any registry mutator, so the backend keeps all its previous
values — integrity score, status, missing and inconsistent epochs, epoch
stats, node type, and priority. -/
theorem checkBackendIntegrity_error_noop (cfg : Config) (b : Backend) :
    checkBackendIntegrity cfg none b = b := rfl

theorem epochLoop_avg_le_100 (cfg : Config) (records : Int → List SlotRecord)
    (currentEpoch minEpoch totalEpochs : Int) (hS : 1 ≤ cfg.slotsPerEpoch)
    (es : List Int) :
    ∀ (incons : List Int) (total count avg : Int),
      0 ≤ count → total ≤ 100 * count → avg ≤ 100 →
      (epochLoop cfg records currentEpoch minEpoch totalEpochs es incons total count avg).2
        ≤ 100 := by
  induction es with
  | nil =>
      intro incons total count avg _ _ h3
      simpa [epochLoop] using h3
  | cons e rest ih =>
      intro incons total count avg h1 h2 h3
      simp only [epochLoop]
      split
      · exact ih incons total count avg h1 h2 h3
      · split
        · simpa using h3
        · have hr100 : (AnalyzeEpochIntegrity
              { epochNumber := e, records := records e,
                expectedValidatorsPerEpoch := cfg.expectedValidators,
                slotsPerEpoch := cfg.slotsPerEpoch }).integrityScore ≤ 100 :=
            analyzeScore_le_100 _ hS
          have hr0 : 0 ≤ (AnalyzeEpochIntegrity
              { epochNumber := e, records := records e,
                expectedValidatorsPerEpoch := cfg.expectedValidators,
                slotsPerEpoch := cfg.slotsPerEpoch }).integrityScore :=
            analyzeScore_nonneg _
          refine ih _ _ _ _ (by omega) (by omega) ?_
          exact tdiv_le_of_le_mul (by omega) (by omega)

/-- C7, amended: after every integrity write-back, provided
`integrityScoreThreshold < 100` and `slotsPerEpoch ≥ 1` (so that the written
score cannot exceed 100), the stored status satisfies
`perfect ⇔ score = 100`, `good ⇔ threshold < score < 100` and
`bad ⇔ score ≤ threshold`. -/
theorem checkBackendIntegrity_status_iff (cfg : Config)
    (stats : GetValidatorsStatsResponse) (b : Backend)
    (hS : 1 ≤ cfg.slotsPerEpoch) (hT : cfg.integrityScoreThreshold < 100)
    (hNE : observedEpochs cfg stats ≠ []) :
    ((integrityStatusOf (checkBackendIntegrity cfg (some stats) b) = "perfect")
        ↔ integrityScoreOf (checkBackendIntegrity cfg (some stats) b) = 100)
      ∧ ((integrityStatusOf (checkBackendIntegrity cfg (some stats) b) = "good")
          ↔ (cfg.integrityScoreThreshold
                < integrityScoreOf (checkBackendIntegrity cfg (some stats) b)
              ∧ integrityScoreOf (checkBackendIntegrity cfg (some stats) b) < 100))
      ∧ ((integrityStatusOf (checkBackendIntegrity cfg (some stats) b) = "bad")
          ↔ integrityScoreOf (checkBackendIntegrity cfg (some stats) b)
              ≤ cfg.integrityScoreThreshold) := by
  have hlen0 : ¬ (observedEpochs cfg stats).length = 0 := by
    simpa [List.length_eq_zero] using hNE
  have havg : (integrityLoopOut cfg stats).2 ≤ 100 := by
    unfold integrityLoopOut
    exact epochLoop_avg_le_100 cfg _ _ _ _ hS _ [] 0 0 100 (le_refl 0) (by norm_num)
      (by norm_num)
  have hscore : integrityScoreOf (checkBackendIntegrity cfg (some stats) b)
      = (integrityLoopOut cfg stats).2 := by
    rw [checkBackendIntegrity_some, if_neg hlen0, integrityScoreOf_computePriority,
      integrityScoreOf_writeBack]
  have hstatus : integrityStatusOf (checkBackendIntegrity cfg (some stats) b)
      = (if (integrityLoopOut cfg stats).2 = 100 then "perfect"
         else if cfg.integrityScoreThreshold < (integrityLoopOut cfg stats).2 then "good"
         else "bad") := by
    rw [checkBackendIntegrity_some, if_neg hlen0, integrityStatusOf_computePriority,
      integrityStatusOf_writeBack]
  rw [hscore, hstatus]
  set a := (integrityLoopOut cfg stats).2 with ha
  by_cases h1 : a = 100
  · rw [if_pos h1]
    refine ⟨by simp [h1], ?_, ?_⟩
    · constructor
      · intro h
        exact absurd h (by decide)
      · rintro ⟨-, hlt⟩
        omega
    · constructor
      · intro h
        exact absurd h (by decide)
      · intro hle
        omega
  · rw [if_neg h1]
    by_cases h2 : cfg.integrityScoreThreshold < a
    · rw [if_pos h2]
      refine ⟨?_, ?_, ?_⟩
      · constructor
        · intro h
          exact absurd h (by decide)
        · intro h
          exact absurd h h1
      · constructor
        · intro _
          exact ⟨h2, by omega⟩
        · intro _
          rfl
      · constructor
        · intro h
          exact absurd h (by decide)
        · intro hle
          omega
    · rw [if_neg h2]
      refine ⟨?_, ?_, ?_⟩
      · constructor
        · intro h
          exact absurd h (by decide)
        · intro h
          exact absurd h h1
      · constructor
        · intro h
          exact absurd h (by decide)
        · rintro ⟨hlt, -⟩
          exact absurd hlt h2
      · constructor
        · intro _
          omega
        · intro _
          rfl

/-- The configuration of the perfect-health integrity test:
`slotsPerEpoch = 2`, `expectedValidators = 2`, `integrityCheckEpochs = 10`,
`integrityScoreThreshold = 95`, `archiverThresholdEpochs = 100`. -/
def testConfig : Config :=
  { slotsPerEpoch := 2, integrityCheckEpochs := 10, expectedValidators := 2,
    archiverThresholdEpochs := 100, integrityScoreThreshold := 95 }

/-- The validator stats of the perfect-health integrity test: two validators
covering slots 20 and 21 of epoch 10, `lastProcessedSlot = "22"`. -/
def perfectStats : GetValidatorsStatsResponse :=
  { lastProcessedSlot := "22"
    stats :=
      [("0x1", { history := [{ slot := "20", status := "block-mined" },
                             { slot := "21", status := "attestation-sent" }] }),
       ("0x2", { history := [{ slot := "20", status := "attestation-sent" },
                             { slot := "21", status := "block-mined" }] })] }

/-- Witness for `checkBackendIntegrity_status_iff` at the perfect-health test
input. -/
theorem checkBackendIntegrity_status_iff_witness :
    1 ≤ testConfig.slotsPerEpoch
      ∧ testConfig.integrityScoreThreshold < 100
      ∧ observedEpochs testConfig perfectStats ≠ []
      ∧ (((integrityStatusOf
            (checkBackendIntegrity testConfig (some perfectStats) (newBackend "u" 0))
              = "perfect")
          ↔ integrityScoreOf
              (checkBackendIntegrity testConfig (some perfectStats) (newBackend "u" 0)) = 100)
        ∧ ((integrityStatusOf
              (checkBackendIntegrity testConfig (some perfectStats) (newBackend "u" 0))
                = "good")
            ↔ (testConfig.integrityScoreThreshold
                  < integrityScoreOf
                      (checkBackendIntegrity testConfig (some perfectStats) (newBackend "u" 0))
                ∧ integrityScoreOf
                    (checkBackendIntegrity testConfig (some perfectStats) (newBackend "u" 0))
                    < 100))
        ∧ ((integrityStatusOf
              (checkBackendIntegrity testConfig (some perfectStats) (newBackend "u" 0))
                = "bad")
            ↔ integrityScoreOf
                (checkBackendIntegrity testConfig (some perfectStats) (newBackend "u" 0))
                ≤ testConfig.integrityScoreThreshold)) :=
  ⟨by decide, by decide, by decide,
    checkBackendIntegrity_status_iff testConfig perfectStats (newBackend "u" 0)
      (by decide) (by decide) (by decide)⟩

/-- The test configuration with `integrityScoreThreshold` raised to 100. -/
def thresholdConfig : Config :=
  { slotsPerEpoch := 2, integrityCheckEpochs := 10, expectedValidators := 2,
    archiverThresholdEpochs := 100, integrityScoreThreshold := 100 }

/-- C7 counterexample: with `integrityScoreThreshold = 100` the perfect-health
input yields score 100 and status `perfect`, yet the claimed equivalence
`status = bad ⇔ score ≤ threshold` demands status `bad` (100 ≤ 100). -/
theorem checkBackendIntegrity_status_claim_false :
    ¬ ((integrityStatusOf
          (checkBackendIntegrity thresholdConfig (some perfectStats) (newBackend "u" 0))
            = "bad")
        ↔ integrityScoreOf
            (checkBackendIntegrity thresholdConfig (some perfectStats) (newBackend "u" 0))
            ≤ thresholdConfig.integrityScoreThreshold) := by
  decide

theorem observedEpochs_sorted (cfg : Config) (stats : GetValidatorsStatsResponse) :
    List.Sorted (fun a b => a ≤ b) (observedEpochs cfg stats) :=
  List.sorted_insertionSort _ _

theorem headD_eq_min_of_sorted (l : List Int) (m : Int)
    (hs : List.Sorted (fun a b => a ≤ b) l) (hm : m ∈ l) (hlb : ∀ e ∈ l, m ≤ e) :
    l.headD 0 = m := by
  cases l with
  | nil => cases hm
  | cons a t =>
      rw [List.headD_cons]
      rcases List.mem_cons.mp hm with h | h
      · exact h.symm
      · have h1 : a ≤ m := (List.sorted_cons.mp hs).1 m h
        have h2 : m ≤ a := hlb a (List.mem_cons_self a t)
        omega

/-- C9: when the number of distinct observed epochs is at most
`integrityCheckEpochs` and the minimum observed epoch lies below
`currentEpoch`, the per-epoch loop breaks at the minimum epoch before
analyzing anything, so the written integrity score is 100 and the written
inconsistent-epoch list is empty, regardless of any epoch's records. -/
theorem checkBackendIntegrity_break_full_score (cfg : Config)
    (stats : GetValidatorsStatsResponse) (b : Backend)
    (hTot : ((observedEpochs cfg stats).length : Int) ≤ cfg.integrityCheckEpochs)
    (hmin : ∃ m, m ∈ observedEpochs cfg stats
        ∧ (∀ e ∈ observedEpochs cfg stats, m ≤ e)
        ∧ m < currentEpochOf cfg stats) :
    integrityScoreOf (checkBackendIntegrity cfg (some stats) b) = 100
      ∧ inconsistentEpochsOf (checkBackendIntegrity cfg (some stats) b) = [] := by
  obtain ⟨m, hmem, hlb, hlt⟩ := hmin
  have hne : observedEpochs cfg stats ≠ [] := by
    intro h
    rw [h] at hmem
    cases hmem
  have hlen0 : ¬ (observedEpochs cfg stats).length = 0 := by
    simpa [List.length_eq_zero] using hne
  have htrim : trimmedEpochs cfg stats = observedEpochs cfg stats := by
    unfold trimmedEpochs
    rw [if_neg (not_lt.mpr hTot)]
  have hhead : (observedEpochs cfg stats).headD 0 = m :=
    headD_eq_min_of_sorted _ m (observedEpochs_sorted cfg stats) hmem hlb
  have hloop : integrityLoopOut cfg stats = ([], 100) := by
    unfold integrityLoopOut
    rw [htrim, hhead]
    obtain ⟨e, rest, hobs⟩ := List.exists_cons_of_ne_nil hne
    have he : e = m := by
      rw [hobs, List.headD_cons] at hhead
      exact hhead
    subst he
    rw [hobs]
    rw [hobs] at hTot
    simp only [epochLoop]
    rw [if_neg (not_le.mpr hlt), if_pos ⟨hTot, trivial⟩]
  constructor
  · rw [checkBackendIntegrity_some, if_neg hlen0, integrityScoreOf_computePriority,
      integrityScoreOf_writeBack, hloop]
  · rw [checkBackendIntegrity_some, if_neg hlen0, inconsistentEpochsOf_computePriority,
      inconsistentEpochsOf_writeBack, hloop]

/-- Witness for `checkBackendIntegrity_break_full_score` at the perfect-health
test input (one observed epoch, epoch 10 below current epoch 11). -/
theorem checkBackendIntegrity_break_full_score_witness :
    ((observedEpochs testConfig perfectStats).length : Int)
        ≤ testConfig.integrityCheckEpochs
      ∧ ((10 : Int) ∈ observedEpochs testConfig perfectStats
          ∧ (∀ e ∈ observedEpochs testConfig perfectStats, (10 : Int) ≤ e)
          ∧ (10 : Int) < currentEpochOf testConfig perfectStats)
      ∧ (integrityScoreOf
            (checkBackendIntegrity testConfig (some perfectStats) (newBackend "u" 0)) = 100
          ∧ inconsistentEpochsOf
              (checkBackendIntegrity testConfig (some perfectStats) (newBackend "u" 0)) = []) :=
  ⟨by decide, ⟨by decide, by decide, by decide⟩,
    checkBackendIntegrity_break_full_score testConfig perfectStats (newBackend "u" 0)
      (by decide) ⟨10, by decide, by decide, by decide⟩⟩

/-! ### Malformed slot strings in `processStats` (claim C10) -/

/-- C10, amended: a history item whose slot string is not syntactically a
valid integer is kept, not rejected: `ParseInt`'s zero value is used, the
record lands in epoch 0's bin, and the oldest slot is dragged to at most 0.
(An item whose slot overflows int64 is also kept, but with the clamped value
`±(2^63 − 1)` / `−2^63` rather than 0.) -/
theorem processStats_keeps_malformed_slot (cfg : Config)
    (stats : GetValidatorsStatsResponse) (addr : String) (vstats : ValidatorStats)
    (item : ValidatorHistoryItem)
    (hmem : (addr, vstats) ∈ stats.stats) (hitem : item ∈ vstats.history)
    (hbad : intSyntaxOk item.slot = false) (hspe : cfg.slotsPerEpoch ≠ 0) :
    ({ slot := item.slot, status := item.status, validator := addr } : SlotRecord)
        ∈ (processStats cfg stats).epochRecords 0
      ∧ (processStats cfg stats).oldestSlot ≤ 0 := by
  have hpair : (addr, item) ∈ allHistoryPairs stats := by
    unfold allHistoryPairs
    rw [List.mem_flatMap]
    exact ⟨(addr, vstats), hmem, List.mem_map.mpr ⟨item, hitem, rfl⟩⟩
  have hval : slotValOf (addr, item) = 0 := by
    unfold slotValOf
    rw [goParseInt_of_syntax_err _ hbad]
  have hep : epochOfPair cfg (addr, item) = 0 := by
    unfold epochOfPair
    rw [hval, Int.zero_tdiv]
  constructor
  · show _ ∈ ((allHistoryPairs stats).filter _).map _
    refine List.mem_map.mpr ⟨(addr, item), ?_, rfl⟩
    refine List.mem_filter.mpr ⟨hpair, ?_⟩
    simp [hep]
  · show minFoldBy slotValOf (allHistoryPairs stats) _ ≤ 0
    have h := minFoldBy_le_mem slotValOf (allHistoryPairs stats)
      (goParseInt stats.lastProcessedSlot).1 (addr, item) hpair
    rw [hval] at h
    exact h

/-- Validator stats containing one malformed slot string. -/
def malformedStats : GetValidatorsStatsResponse :=
  { lastProcessedSlot := "50"
    stats := [("0xa", { history := [{ slot := "abc", status := "block-mined" }] })] }

/-- Witness for `processStats_keeps_malformed_slot` on a history whose only
item has the unparseable slot `"abc"`. -/
theorem processStats_keeps_malformed_slot_witness :
    (("0xa", ({ history := [{ slot := "abc", status := "block-mined" }] } : ValidatorStats))
        ∈ malformedStats.stats
      ∧ ({ slot := "abc", status := "block-mined" } : ValidatorHistoryItem)
          ∈ ({ history := [{ slot := "abc", status := "block-mined" }] } : ValidatorStats).history
      ∧ intSyntaxOk "abc" = false
      ∧ testConfig.slotsPerEpoch ≠ 0)
      ∧ (({ slot := "abc", status := "block-mined", validator := "0xa" } : SlotRecord)
            ∈ (processStats testConfig malformedStats).epochRecords 0
          ∧ (processStats testConfig malformedStats).oldestSlot ≤ 0) :=
  ⟨⟨by decide, by decide, by decide, by decide⟩,
    processStats_keeps_malformed_slot testConfig malformedStats "0xa"
      { history := [{ slot := "abc", status := "block-mined" }] }
      { slot := "abc", status := "block-mined" }
      (by decide) (by decide) (by decide) (by decide)⟩

/-- Validator stats whose only slot string overflows int64. -/
def overflowStats : GetValidatorsStatsResponse :=
  { lastProcessedSlot := "100"
    stats := [("0xv", { history := [{ slot := "9223372036854775808", status := "block-mined" }] })] }

/-- The default network configuration (`slotsPerEpoch = 32`). -/
def slotsConfig : Config :=
  { slotsPerEpoch := 32, integrityCheckEpochs := 10, expectedValidators := 24,
    archiverThresholdEpochs := 100, integrityScoreThreshold := 95 }

/-- C10 counterexample: the slot string `"9223372036854775808"` (2^63) does
not parse — `ParseInt` reports an error — yet the kept value is the clamped
`2^63 − 1`, not 0: the record is binned into epoch 288230376151711743, epoch 0
stays empty, and the oldest slot stays 100 instead of being dragged to 0. -/
theorem processStats_overflow_not_epoch_zero :
    (goParseInt "9223372036854775808").2 = false
      ∧ (processStats slotsConfig overflowStats).epochRecords 0 = []
      ∧ ¬ ((0 : Int) ∈ observedEpochs slotsConfig overflowStats)
      ∧ (288230376151711743 : Int) ∈ observedEpochs slotsConfig overflowStats
      ∧ (processStats slotsConfig overflowStats).oldestSlot = 100 := by
  decide

end SentinelProxy
